import Mathlib

/-!
Verification of the WoL-Manu Wake-on-LAN server core (src/wol_server.py).

Strings are embedded as `List Char`.  The functions `validate_mac`,
`validate_ip`, `create_magic_packet` and `send_magic_packet` below are
shallow embeddings of the Python functions of the same names; the global
`server_stats["security_violations"]` counter is embedded as the second
component of the `_full` variants (the increment the call performs), and
`server_stats["magic_packets_sent"]` as the `packetsSentInc` field of
`SendResult`.  Python exceptions caught by the try/except blocks are
embedded with `Except`.
-/

namespace WoL

/-- ASCII whitespace, matching Python `str.strip()` and the regex class
used in `re.sub(r'[:\-\s]', ...)` on ASCII input. -/
def isSpace (c : Char) : Bool :=
  c == '\x0c' || c == '\x0b' || c == '\r' || c == '\n' || c == '\t' || c == ' '

/-- Lowercase hexadecimal digit. -/
def isLowerHex (c : Char) : Bool :=
  c == 'f' || c == 'e' || c == 'd' || c == 'c' || c == 'b' || c == 'a' ||
  c == '9' || c == '8' || c == '7' || c == '6' || c == '5' || c == '4' ||
  c == '3' || c == '2' || c == '1' || c == '0'

/-- Uppercase hexadecimal digit — the membership test
`c in '0123456789ABCDEF'` of `validate_mac`. -/
def isUpperHex (c : Char) : Bool :=
  c == 'F' || c == 'E' || c == 'D' || c == 'C' || c == 'B' || c == 'A' ||
  c == '9' || c == '8' || c == '7' || c == '6' || c == '5' || c == '4' ||
  c == '3' || c == '2' || c == '1' || c == '0'

/-- Hexadecimal digit of either case. -/
def isHexCI (c : Char) : Bool := isLowerHex c || isUpperHex c

/-- Python `str.strip()` on ASCII input: drop whitespace from both ends. -/
def stripList (s : List Char) : List Char :=
  ((s.dropWhile isSpace).reverse.dropWhile isSpace).reverse

/-- A character removed by `re.sub(r'[:\-\s]', '', ...)`. -/
def isSepSpace (c : Char) : Bool := c == ':' || c == '-' || isSpace c

/-- `re.sub(r'[:\-\s]', '', s)`: delete separators and whitespace. -/
def removeSeps (s : List Char) : List Char :=
  s.filter (fun c => !(isSepSpace c))

/-- Python's substring test `needle in hay` (for the `List Char`
embedding of strings). -/
def listContains (hay needle : List Char) : Bool :=
  match hay with
  | [] => needle.isEmpty
  | _ :: t => needle.isPrefixOf hay || listContains t needle

/-- Python `len(set(s)) <= 1`: the string has at most one distinct
character. -/
def allSame : List Char → Bool
  | [] => true
  | c :: t => t.all (fun d => d == c)

/-- Python `s.split('.')`. -/
def splitOnDot : List Char → List (List Char)
  | [] => [[]]
  | c :: t =>
    if c == '.' then [] :: splitOnDot t
    else
      match splitOnDot t with
      | h :: r => (c :: h) :: r
      | [] => [[c]]

/-- Decimal digit value. -/
def digitVal (c : Char) : Option Nat :=
  if c == '0' then some 0 else if c == '1' then some 1
  else if c == '2' then some 2 else if c == '3' then some 3
  else if c == '4' then some 4 else if c == '5' then some 5
  else if c == '6' then some 6 else if c == '7' then some 7
  else if c == '8' then some 8 else if c == '9' then some 9
  else none

/-- Remaining digits of a Python int literal: digits possibly separated
by single underscores (an underscore must sit between two digits). -/
def digitsRest : Nat → List Char → Option Nat
  | acc, [] => some acc
  | acc, '_' :: rest =>
    match rest with
    | [] => none
    | c :: rest2 =>
      match digitVal c with
      | some d => digitsRest (acc * 10 + d) rest2
      | none => none
  | acc, c :: rest =>
    match digitVal c with
    | some d => digitsRest (acc * 10 + d) rest
    | none => none

/-- Python int-literal digit part: at least one digit, underscores only
between digits. -/
def parseDigitpart : List Char → Option Nat
  | [] => none
  | c :: rest =>
    match digitVal c with
    | some d => digitsRest d rest
    | none => none

/-- Python `int(s)` on an ASCII decimal string: surrounding whitespace is
ignored, an optional single `+`/`-` sign is allowed, underscores may
separate digits; `none` models the `ValueError` raise. -/
def pyInt (s : List Char) : Option Int :=
  match stripList s with
  | '+' :: rest => (parseDigitpart rest).map (fun n => (n : Int))
  | '-' :: rest => (parseDigitpart rest).map (fun n => -(n : Int))
  | rest => (parseDigitpart rest).map (fun n => (n : Int))

/-- Hex digit value accepted by Python `bytes.fromhex`. -/
def hexDigit (c : Char) : Option Nat :=
  if c == '0' then some 0 else if c == '1' then some 1
  else if c == '2' then some 2 else if c == '3' then some 3
  else if c == '4' then some 4 else if c == '5' then some 5
  else if c == '6' then some 6 else if c == '7' then some 7
  else if c == '8' then some 8 else if c == '9' then some 9
  else if c == 'A' || c == 'a' then some 10
  else if c == 'B' || c == 'b' then some 11
  else if c == 'C' || c == 'c' then some 12
  else if c == 'D' || c == 'd' then some 13
  else if c == 'E' || c == 'e' then some 14
  else if c == 'F' || c == 'f' then some 15
  else none

/-- Python `bytes.fromhex` on a separator-free string: consecutive pairs
of hex digits become bytes; `none` models the `ValueError` raise. -/
def hexPairsToBytes : List Char → Option (List Nat)
  | [] => some []
  | [_] => none
  | a :: b :: rest =>
    match hexDigit a, hexDigit b, hexPairsToBytes rest with
    | some hi, some lo, some t => some ((16 * hi + lo) :: t)
    | _, _, _ => none

/-- Apostrophe character. -/
def chQ : Char := Char.ofNat 39

/-- Backslash character. -/
def chBS : Char := Char.ofNat 92

/-- Backtick character. -/
def chBT : Char := Char.ofNat 96

/-- Left-brace character. -/
def chLB : Char := Char.ofNat 123

/-- The `dangerous_patterns` denylist of `validate_mac`, in source
order. -/
def macPatterns : List (List Char) :=
  [ [chQ, ';'], [chQ, '"'], ['-', '-'], ['/', '*'], ['*', '/'],
    ['$', chLB], ['<', 's', 'c', 'r', 'i', 'p', 't'], ['.', '.', '/'],
    [chBS, 'x'],
    "drop table".toList, "delete from".toList, "insert into".toList,
    "update ".toList, "select ".toList, "union select".toList,
    "exec(".toList, "eval(".toList, "system(".toList,
    "__import__".toList ]

/-- `any(pattern in mac_lower for pattern in dangerous_patterns)` of
`validate_mac`. -/
def macDangerous (s : List Char) : Bool :=
  macPatterns.any (fun p => listContains s p)

/-- The `dangerous_patterns` denylist of `validate_ip`, in source
order. -/
def ipPatterns : List (List Char) :=
  [ [chQ, ';'], [chQ, '"'], ['$', chLB], ['<'], ['>'], ['&'], ['|'],
    [chBT], ['$', '('], ['.', '.', '/'], [chBS, 'x'] ]

/-- The denylist scan of `validate_ip` (case-sensitive). -/
def ipDangerous (s : List Char) : Bool :=
  ipPatterns.any (fun p => listContains s p)

/-- Canonical string `'000000000000'` rejected by `validate_mac`. -/
def zeros12 : List Char := List.replicate 12 '0'

/-- Canonical string `'FFFFFFFFFFFF'` rejected by `validate_mac`. -/
def effs12 : List Char := List.replicate 12 'F'

/-- `mac_clean` as computed inside `validate_mac`: strip surrounding
whitespace, uppercase, then delete `:`/`-`/whitespace. -/
def macCleanV (s : List Char) : List Char :=
  removeSeps ((stripList s).map Char.toUpper)

/-- `mac_clean` as computed inside `create_magic_packet`: uppercase the
raw input, then delete `:`/`-`/whitespace. -/
def macCleanOf (s : List Char) : List Char :=
  removeSeps (s.map Char.toUpper)

/-- Embedding of `validate_mac`: the returned boolean together with the
increment the call applies to `server_stats["security_violations"]`. -/
def validate_mac_full (s : List Char) : Bool × Nat :=
  if s.isEmpty then (false, 0)
  else if 50 < s.length then (false, 1)
  else if macDangerous (s.map Char.toLower) then (false, 1)
  else if (stripList s).contains ':' && (stripList s).contains '-' then (false, 0)
  else if (macCleanV s).length ≠ 12 then (false, 0)
  else if !((macCleanV s).all isUpperHex) then (false, 0)
  else if macCleanV s = zeros12 ∨ macCleanV s = effs12 then (false, 0)
  else if allSame (macCleanV s) then (false, 0)
  else (true, 0)

/-- The boolean returned by `validate_mac`. -/
def validate_mac (s : List Char) : Bool := (validate_mac_full s).1

/-- One Python-loop step of the octet checks of `validate_ip`: leading
zero, `int(part)` (whose `ValueError` is the `Except.error` case), and
the 0–255 range. -/
def octetOk (p : List Char) : Except Unit Bool :=
  if 1 < p.length ∧ p.headD ' ' = '0' then Except.ok false
  else
    match pyInt p with
    | none => Except.error ()
    | some n => if n < 0 ∨ 255 < n then Except.ok false else Except.ok true

/-- The octet loop of `validate_ip`: stops at the first failing part;
an uncaught `ValueError` propagates. -/
def octetsOk : List (List Char) → Except Unit Bool
  | [] => Except.ok true
  | p :: rest =>
    match octetOk p with
    | Except.error e => Except.error e
    | Except.ok false => Except.ok false
    | Except.ok true => octetsOk rest

/-- The `try` block of `validate_ip`: split on `.`, check the four
octets, then the reserved-address policy checks on the original
string. -/
def ipStructRes (s : List Char) : Except Unit Bool :=
  if (splitOnDot s).length ≠ 4 then Except.ok false
  else
    match octetsOk (splitOnDot s) with
    | Except.error e => Except.error e
    | Except.ok false => Except.ok false
    | Except.ok true =>
      if s = "0.0.0.0".toList ∨ s = "127.0.0.1".toList ∨
          s = "255.255.255.255".toList then Except.ok false
      else if List.isPrefixOf ("127.".toList) s then Except.ok false
      else Except.ok true

/-- Embedding of `validate_ip`: the returned boolean together with the
increment the call applies to `server_stats["security_violations"]`.
The `except (ValueError, AttributeError)` handler is the `Except.error`
branch of the final match. -/
def validate_ip_full (s : List Char) : Bool × Nat :=
  if s.isEmpty then (false, 0)
  else if s ≠ stripList s ∨ '\t' ∈ s ∨ '\n' ∈ s then (false, 0)
  else if 15 < s.length then (false, 1)
  else if ipDangerous s then (false, 1)
  else
    match ipStructRes s with
    | Except.ok b => (b, 0)
    | Except.error _ => (false, 0)

/-- The boolean returned by `validate_ip`. -/
def validate_ip (s : List Char) : Bool := (validate_ip_full s).1

/-- The `try` block of `create_magic_packet`; `Except.error` models an
exception reaching the `except` handler (only `bytes.fromhex` can
raise there). -/
def create_magic_packet_try (s : List Char) : Except (List Char) (Option (List Nat)) :=
  if !(validate_mac s) then Except.ok none
  else
    match hexPairsToBytes (macCleanOf s) with
    | none => Except.error ("fromhex".toList)
    | some mb =>
      if (List.replicate 6 255 ++ (List.replicate 16 mb).flatten).length ≠ 102 then
        Except.ok none
      else Except.ok (some (List.replicate 6 255 ++ (List.replicate 16 mb).flatten))

/-- Embedding of `create_magic_packet`: `6 * 0xFF` then 16 repetitions
of the 6 MAC bytes; `none` on failed re-validation, wrong size, or any
caught exception. -/
def create_magic_packet (s : List Char) : Option (List Nat) :=
  match create_magic_packet_try s with
  | Except.ok r => r
  | Except.error _ => none

/-- The 6 raw MAC bytes `bytes.fromhex(mac_clean)` extracts in
`create_magic_packet` (defaulting to `[]` when conversion fails). -/
def macBytes (s : List Char) : List Nat :=
  (hexPairsToBytes (macCleanOf s)).getD []

/-- No two adjacent characters of the list are both `-`. -/
def noAdjacent : List Char → Bool
  | a :: b :: t => !(a == '-' && b == '-') && noAdjacent (b :: t)
  | _ => true

/-- The full magic packet `b'\xFF' * 6 + mac_bytes * 16` built from an
input string. -/
def magicOf (s : List Char) : List Nat :=
  List.replicate 6 255 ++ (List.replicate 16 (macBytes s)).flatten

/-- The process-wide `server_stats` counters. -/
structure Stats where
  requests_handled : Nat
  magic_packets_sent : Nat
  validation_errors : Nat
  security_violations : Nat

/-- `validate_mac` as a state transformer over the global counters. -/
def validate_mac_st (s : List Char) (st : Stats) : Bool × Stats :=
  ((validate_mac_full s).1,
    { st with security_violations :=
        st.security_violations + (validate_mac_full s).2 })

/-- `validate_ip` as a state transformer over the global counters. -/
def validate_ip_st (s : List Char) (st : Stats) : Bool × Stats :=
  ((validate_ip_full s).1,
    { st with security_violations :=
        st.security_violations + (validate_ip_full s).2 })

/-- Outcome of the `sock.sendto` transmission attempt: either it
returned a byte count, or it raised `socket.timeout`, or it raised some
other socket exception. -/
inductive NetOutcome where
  | sent : Nat → NetOutcome
  | timeout : NetOutcome
  | sockError : NetOutcome

/-- The result dictionary of `send_magic_packet`, plus the bookkeeping
this verification observes: the `(address, port)` pair passed to
`sock.sendto` (when a send was attempted) and the increment applied to
`server_stats["magic_packets_sent"]`. -/
structure SendResult where
  success : Bool
  mac : List Char
  target_ip : Option (List Char)
  dest : Option (List Char × Nat)
  packet_size : Option Nat
  error : Option (List Char)
  packetsSentInc : Nat

/-- Embedding of `send_magic_packet mac target_ip`: `bip` is the
configured `WOL_BROADCAST_IP` value and `net` the transmission
outcome.  Every `sendto` call in the source sends to
`(broadcast_ip, 9)`. -/
def send_magic_packet (mac : List Char) (target_ip : Option (List Char))
    (bip : List Char) (net : NetOutcome) : SendResult :=
  match create_magic_packet mac with
  | none =>
    { success := false, mac := mac, target_ip := none, dest := none,
      packet_size := none,
      error := some ("Invalid MAC address format".toList), packetsSentInc := 0 }
  | some pkt =>
    match net with
    | NetOutcome.sent n =>
      if n = pkt.length then
        { success := true, mac := mac, target_ip := target_ip,
          dest := some (bip, 9), packet_size := some n, error := none,
          packetsSentInc := 1 }
      else
        { success := false, mac := mac, target_ip := none,
          dest := some (bip, 9), packet_size := none,
          error := some ("Incomplete packet transmission".toList),
          packetsSentInc := 0 }
    | NetOutcome.timeout =>
      { success := false, mac := mac, target_ip := none,
        dest := some (bip, 9), packet_size := none,
        error := some ("Network timeout".toList), packetsSentInc := 0 }
    | NetOutcome.sockError =>
      { success := false, mac := mac, target_ip := none,
        dest := some (bip, 9), packet_size := none,
        error := some ("Network error".toList), packetsSentInc := 0 }

/-- The signature string `'; DROP TABLE`. -/
def sigDropTable : List Char := [chQ] ++ "; DROP TABLE".toList

/-- The signature string `<script>`. -/
def sigScriptTag : List Char := "<script>".toList

/-- The signature string `../../../etc/passwd`. -/
def sigPathTrav : List Char := "../../../etc/passwd".toList

/-- The three separator styles of a canonical MAC rendering. -/
inductive SepStyle where
  | colon : SepStyle
  | hyphen : SepStyle
  | bare : SepStyle

/-- Insert a separator after every pair of characters
(`AABB…` becomes `AA:BB:…`). -/
def insertSep (sep : Char) : List Char → List Char
  | a :: b :: d :: rest => a :: b :: sep :: insertSep sep (d :: rest)
  | l => l

/-- Render a character list in one of the three separator styles. -/
def applySep : SepStyle → List Char → List Char
  | SepStyle.colon, cs => insertSep ':' cs
  | SepStyle.hyphen, cs => insertSep '-' cs
  | SepStyle.bare, cs => cs

/-- The policy tail of `validate_mac` on an already canonical string:
reject `000000000000`, `FFFFFFFFFFFF` and all-same strings. -/
def macPolicy (canon : List Char) : Bool :=
  if canon = zeros12 ∨ canon = effs12 then false
  else if allSame canon then false
  else true

/-! ### Theorems -/

/-! ### Helper lemmas about the string utilities -/

theorem hexCI_mem (c : Char) (h : isHexCI c = true) :
    c ∈ ['f', 'e', 'd', 'c', 'b', 'a', '9', '8', '7', '6', '5', '4', '3',
      '2', '1', '0', 'F', 'E', 'D', 'C', 'B', 'A'] := by
  simp only [isHexCI, isLowerHex, isUpperHex, Bool.or_eq_true, beq_iff_eq] at h
  simp only [List.mem_cons, List.not_mem_nil, or_false]
  tauto

theorem hexCI_facts (c : Char) (h : isHexCI c = true) :
    isLowerHex c.toLower = true ∧ isUpperHex c.toUpper = true ∧
    isSpace c = false ∧ (c == ':') = false ∧ (c == '-') = false ∧
    isSepSpace c.toUpper = false := by
  have hm := hexCI_mem c h
  fin_cases hm <;> decide

theorem lowerHex_beq_false {c w : Char} (h : isLowerHex c = true)
    (hw : isLowerHex w = false) : (c == w) = false := by
  cases hcw : (c == w) with
  | false => rfl
  | true =>
    rw [beq_iff_eq] at hcw
    subst hcw
    rw [h] at hw
    exact absurd hw (by simp)

theorem lowerHex_beq_false_left {c w : Char} (h : isLowerHex c = true)
    (hw : isLowerHex w = false) : (w == c) = false := by
  cases hcw : (w == c) with
  | false => rfl
  | true =>
    rw [beq_iff_eq] at hcw
    subst hcw
    rw [hw] at h
    exact absurd h (by simp)

theorem listContains_mem {hay needle : List Char}
    (h : listContains hay needle = true) : ∀ c ∈ needle, c ∈ hay := by
  induction hay with
  | nil =>
    simp only [listContains, List.isEmpty_iff] at h
    subst h
    intro c hc
    exact absurd hc (List.not_mem_nil c)
  | cons a t ih =>
    simp only [listContains, Bool.or_eq_true] at h
    rcases h with h | h
    · rw [List.isPrefixOf_iff_prefix] at h
      exact fun c hc => h.sublist.mem hc
    · exact fun c hc => List.mem_cons_of_mem a (ih h c hc)

theorem listContains_false_of {S : Char → Bool} {hay needle : List Char}
    (hS : ∀ c ∈ hay, S c = true) {w : Char} (hw : w ∈ needle)
    (hwS : S w = false) : listContains hay needle = false := by
  cases hcw : listContains hay needle with
  | false => rfl
  | true =>
    have := hS w (listContains_mem hcw w hw)
    rw [hwS] at this
    exact absurd this (by simp)

theorem listContains_infix_iff {hay needle : List Char} :
    listContains hay needle = true ↔ needle <:+: hay := by
  induction hay with
  | nil =>
    simp [listContains, List.isEmpty_iff, List.infix_nil]
  | cons a t ih =>
    simp only [listContains, Bool.or_eq_true, List.isPrefixOf_iff_prefix, ih,
      List.infix_cons_iff]

theorem listContains_map (f : Char → Char) {hay needle : List Char}
    (h : listContains hay needle = true) :
    listContains (hay.map f) (needle.map f) = true := by
  rw [listContains_infix_iff] at h ⊢
  exact h.map f

theorem listContains_trans {a b c : List Char}
    (h1 : listContains a b = true) (h2 : listContains b c = true) :
    listContains a c = true := by
  rw [listContains_infix_iff] at h1 h2 ⊢
  exact h2.trans h1

theorem listContains_dashdash_false {hay : List Char}
    (h : noAdjacent hay = true) : listContains hay ['-', '-'] = false := by
  induction hay with
  | nil => rfl
  | cons a t ih =>
    cases t with
    | nil => simp [listContains, List.isPrefixOf]
    | cons b t2 =>
      simp only [noAdjacent, Bool.and_eq_true, Bool.not_eq_true'] at h
      have h2 : listContains (b :: t2) ['-', '-'] = false := ih h.2
      have hstep : listContains (a :: b :: t2) ['-', '-'] =
          (List.isPrefixOf ['-', '-'] (a :: b :: t2) ||
            listContains (b :: t2) ['-', '-']) := rfl
      have hpre : List.isPrefixOf ['-', '-'] (a :: b :: t2) =
          (('-' == a) && (('-' == b) && List.isPrefixOf ([] : List Char) t2)) := rfl
      rw [hstep, h2, Bool.or_false, hpre]
      rcases Bool.and_eq_false_iff.mp h.1 with h' | h'
      · have hfa : ('-' == a) = false := by
          rw [beq_eq_false_iff_ne] at h' ⊢
          exact fun e => h' e.symm
        rw [hfa, Bool.false_and]
      · have hfb : ('-' == b) = false := by
          rw [beq_eq_false_iff_ne] at h' ⊢
          exact fun e => h' e.symm
        rw [hfb, Bool.false_and, Bool.and_false]

theorem dropWhile_eq_self_of {p : Char → Bool} {l : List Char}
    (h : ∀ c ∈ l, p c = false) : l.dropWhile p = l := by
  cases l with
  | nil => rfl
  | cons a t =>
    rw [List.dropWhile_cons, h a (List.mem_cons_self a t)]
    simp

theorem stripList_eq_self {l : List Char}
    (h : ∀ c ∈ l, isSpace c = false) : stripList l = l := by
  unfold stripList
  rw [dropWhile_eq_self_of h,
    dropWhile_eq_self_of (fun c hc => h c (List.mem_reverse.mp hc)),
    List.reverse_reverse]

theorem filter_dropWhile {keep : Char → Bool}
    (hk : ∀ c, isSpace c = true → keep c = false) (l : List Char) :
    (l.dropWhile isSpace).filter keep = l.filter keep := by
  induction l with
  | nil => rfl
  | cons a t ih =>
    rw [List.dropWhile_cons]
    cases ha : isSpace a with
    | false => simp
    | true =>
      have : keep a = false := hk a ha
      simp only [if_true]
      rw [ih, List.filter_cons, this]
      simp

theorem filter_stripList {keep : Char → Bool}
    (hk : ∀ c, isSpace c = true → keep c = false) (l : List Char) :
    (stripList l).filter keep = l.filter keep := by
  unfold stripList
  rw [List.filter_reverse, filter_dropWhile hk, List.filter_reverse,
    List.reverse_reverse, filter_dropWhile hk]

theorem macCleanV_eq_macCleanOf (s : List Char) : macCleanV s = macCleanOf s := by
  unfold macCleanV macCleanOf removeSeps
  rw [List.filter_map, List.filter_map]
  congr 1
  apply filter_stripList
  intro c hc
  simp only [isSpace, Bool.or_eq_true, beq_iff_eq] at hc
  rcases hc with ((((rfl | rfl) | rfl) | rfl) | rfl) | rfl <;> decide

theorem upperHex_mem (c : Char) (h : isUpperHex c = true) :
    c ∈ ['F', 'E', 'D', 'C', 'B', 'A', '9', '8', '7', '6', '5', '4', '3',
      '2', '1', '0'] := by
  simp only [isUpperHex, Bool.or_eq_true, beq_iff_eq] at h
  simp only [List.mem_cons, List.not_mem_nil, or_false]
  tauto

theorem hexDigit_of_upperHex (c : Char) (h : isUpperHex c = true) :
    ∃ d, hexDigit c = some d ∧ d ≤ 15 := by
  have hm := upperHex_mem c h
  fin_cases hm <;> exact ⟨_, rfl, by decide⟩

theorem hexPairsToBytes_ok : ∀ (n : Nat) (l : List Char), l.length = 2 * n →
    (∀ c ∈ l, isUpperHex c = true) →
    ∃ bs, hexPairsToBytes l = some bs ∧ bs.length = n ∧ ∀ b ∈ bs, b < 256 := by
  intro n
  induction n with
  | zero =>
    intro l hl _
    rw [Nat.mul_zero, List.length_eq_zero] at hl
    subst hl
    exact ⟨[], rfl, rfl, by simp⟩
  | succ k ih =>
    intro l hl hhex
    cases l with
    | nil => simp at hl
    | cons a t =>
      cases t with
      | nil => simp at hl; omega
      | cons b rest =>
        have hrest : rest.length = 2 * k := by
          simp only [List.length_cons] at hl
          omega
        obtain ⟨da, hda, hda15⟩ :=
          hexDigit_of_upperHex a (hhex a (by simp))
        obtain ⟨db, hdb, hdb15⟩ :=
          hexDigit_of_upperHex b (hhex b (by simp))
        obtain ⟨bs, hbs, hblen, hb256⟩ :=
          ih rest hrest (fun c hc => hhex c (by simp [hc]))
        refine ⟨(16 * da + db) :: bs, ?_, ?_, ?_⟩
        · simp only [hexPairsToBytes]
          rw [hda, hdb, hbs]
        · simp [hblen]
        · intro x hx
          rcases List.mem_cons.mp hx with rfl | hx
          · omega
          · exact hb256 x hx

theorem validate_mac_true_facts {s : List Char} (h : validate_mac s = true) :
    (macCleanV s).length = 12 ∧ (∀ c ∈ macCleanV s, isUpperHex c = true) ∧
    macCleanV s ≠ zeros12 ∧ macCleanV s ≠ effs12 ∧
    allSame (macCleanV s) = false := by
  unfold validate_mac validate_mac_full at h
  split_ifs at h with h1 h2 h3 h4 h5 h6 h7 h8
  push_neg at h5
  rw [Bool.not_eq_true, Bool.not_eq_false'] at h6
  push_neg at h7
  rw [Bool.not_eq_true] at h8
  refine ⟨h5, ?_, h7.1, h7.2, h8⟩
  intro c hc
  have := List.all_eq_true.mp h6 c hc
  simpa using this

theorem create_magic_packet_valid {s : List Char} (h : validate_mac s = true) :
    (macCleanOf s).length = 12 ∧
    hexPairsToBytes (macCleanOf s) = some (macBytes s) ∧
    (macBytes s).length = 6 ∧
    create_magic_packet_try s = Except.ok (some (magicOf s)) ∧
    create_magic_packet s = some (magicOf s) ∧
    (magicOf s).length = 102 ∧
    (∀ b ∈ magicOf s, b < 256) := by
  obtain ⟨hlen, hhex, _, _, _⟩ := validate_mac_true_facts h
  rw [macCleanV_eq_macCleanOf] at hlen hhex
  obtain ⟨mb, hmb, hmb6, hmb256⟩ :=
    hexPairsToBytes_ok 6 (macCleanOf s) (by omega) hhex
  have hmacBytes : macBytes s = mb := by
    unfold macBytes
    rw [hmb]
    rfl
  have hpktlen : (magicOf s).length = 102 := by
    unfold magicOf
    rw [hmacBytes]
    simp [hmb6]
  have htry : create_magic_packet_try s = Except.ok (some (magicOf s)) := by
    unfold create_magic_packet_try
    rw [h]
    simp only [Bool.not_true, Bool.false_eq_true, if_false, hmb]
    rw [if_neg (by
      show ¬(List.replicate 6 255 ++ (List.replicate 16 mb).flatten).length ≠ 102
      rw [← hmacBytes]
      rw [show (List.replicate 6 255 ++ (List.replicate 16 (macBytes s)).flatten) = magicOf s from rfl]
      rw [hpktlen]
      omega)]
    unfold magicOf
    rw [hmacBytes]
  refine ⟨hlen, by rw [hmb, hmacBytes], by rw [hmacBytes]; exact hmb6, htry, ?_, hpktlen, ?_⟩
  · unfold create_magic_packet
    rw [htry]
  · intro b hb
    unfold magicOf at hb
    rcases List.mem_append.mp hb with hb | hb
    · have := List.eq_of_mem_replicate hb
      omega
    · obtain ⟨l', hl', hbl'⟩ := List.mem_flatten.mp hb
      have := List.eq_of_mem_replicate hl'
      subst this
      rw [hmacBytes] at hbl'
      exact hmb256 b hbl'

theorem create_magic_packet_invalid {s : List Char} (h : validate_mac s = false) :
    create_magic_packet_try s = Except.ok none ∧ create_magic_packet s = none := by
  unfold create_magic_packet create_magic_packet_try
  rw [h]
  exact ⟨rfl, rfl⟩

theorem create_magic_packet_hexfail {s : List Char}
    (hn : hexPairsToBytes (macCleanOf s) = none) :
    create_magic_packet s = none := by
  by_cases hv : validate_mac s = true
  · unfold create_magic_packet create_magic_packet_try
    rw [hv, hn]
    rfl
  · rw [Bool.not_eq_true] at hv
    unfold create_magic_packet create_magic_packet_try
    rw [hv]
    rfl

/-- Claim C1: on every input accepted by `validate_mac`,
`create_magic_packet` returns exactly `0xFF × 6` followed by 16
repetitions of the 6 raw bytes decoded from the 12 canonical hex
characters — 102 bytes in all; on failed re-validation or failed hex
conversion it returns `None` (caught by the `try` handler, never a
raised exception). -/
theorem C1_create_magic_packet (s : List Char) :
    (validate_mac s = true →
      (macCleanOf s).length = 12 ∧
      hexPairsToBytes (macCleanOf s) = some (macBytes s) ∧
      (macBytes s).length = 6 ∧
      create_magic_packet s =
        some (List.replicate 6 255 ++
          (List.replicate 16 (macBytes s)).flatten) ∧
      (List.replicate 6 255 ++
        (List.replicate 16 (macBytes s)).flatten).length = 102) ∧
    (validate_mac s = false → create_magic_packet s = none) ∧
    (hexPairsToBytes (macCleanOf s) = none → create_magic_packet s = none) := by
  refine ⟨?_, fun h => (create_magic_packet_invalid h).2, create_magic_packet_hexfail⟩
  intro h
  obtain ⟨h1, h2, h3, _, h5, h6, _⟩ := create_magic_packet_valid h
  exact ⟨h1, h2, h3, h5, h6⟩

/-- Concrete instantiation of claim C1 at `AA:BB:CC:DD:EE:FF`. -/
theorem C1_witness :
    validate_mac ("AA:BB:CC:DD:EE:FF".toList) = true ∧
    create_magic_packet ("AA:BB:CC:DD:EE:FF".toList) =
      some (List.replicate 6 255 ++
        (List.replicate 16 (macBytes ("AA:BB:CC:DD:EE:FF".toList))).flatten) :=
  ⟨by decide,
    ((C1_create_magic_packet ("AA:BB:CC:DD:EE:FF".toList)).1 (by decide)).2.2.2.1⟩

/-- Claim C5: any input whose 12 canonical characters are all identical
(in particular canonical `000000000000` and `FFFFFFFFFFFF`) is rejected
by `validate_mac`, whatever the separator style and letter case of the
raw input. -/
theorem C5_all_same_rejected :
    (∀ s : List Char, (macCleanV s).length = 12 → allSame (macCleanV s) = true →
      validate_mac s = false) ∧
    (∀ s : List Char, macCleanV s = zeros12 ∨ macCleanV s = effs12 →
      validate_mac s = false) ∧
    validate_mac ("00:00:00:00:00:00".toList) = false ∧
    validate_mac ("FF:FF:FF:FF:FF:FF".toList) = false ∧
    validate_mac ("AAAAAAAAAAAA".toList) = false := by
  refine ⟨?_, ?_, by decide, by decide, by decide⟩
  · intro s _ hsame
    cases hv : validate_mac s with
    | false => rfl
    | true =>
      obtain ⟨_, _, _, _, hns⟩ := validate_mac_true_facts hv
      rw [hsame] at hns
      exact absurd hns (by simp)
  · intro s hze
    cases hv : validate_mac s with
    | false => rfl
    | true =>
      obtain ⟨_, _, hz, he, _⟩ := validate_mac_true_facts hv
      rcases hze with hze | hze
      · exact absurd hze hz
      · exact absurd hze he

/-- Concrete instantiation of claim C5 at `11:11:11:11:11:11`. -/
theorem C5_witness :
    (macCleanV ("11:11:11:11:11:11".toList)).length = 12 ∧
    allSame (macCleanV ("11:11:11:11:11:11".toList)) = true ∧
    validate_mac ("11:11:11:11:11:11".toList) = false :=
  ⟨by decide, by decide,
    C5_all_same_rejected.1 ("11:11:11:11:11:11".toList) (by decide) (by decide)⟩

/-- Claim C10: `validate_ip` accepts some inputs whose octet fields are
not plain decimal digit strings, because each part is handed to Python
`int()` after only the leading-zero check: a `+` sign, an embedded
space, and an underscore all pass. -/
theorem C10_lax_octet_parsing :
    validate_ip ("192.168.1.+5".toList) = true ∧
    validate_ip ("192.168. 5.1".toList) = true ∧
    validate_ip ("192.168.1.2_5".toList) = true ∧
    pyInt ("+5".toList) = some 5 ∧
    pyInt (" 5".toList) = some 5 ∧
    pyInt ("2_5".toList) = some 25 := by
  exact ⟨by decide, by decide, by decide, by decide, by decide, by decide⟩

/-- Claim C9: the verdicts of `validate_mac` and `validate_ip` depend
only on the input string — not on the current counter values and not on
any interleaved validator calls. -/
theorem C9_validators_deterministic (s t : List Char) (st₁ st₂ : Stats) :
    (validate_mac_st s st₁).1 = (validate_mac_st s st₂).1 ∧
    (validate_ip_st s st₁).1 = (validate_ip_st s st₂).1 ∧
    (validate_mac_st s ((validate_ip_st t st₁).2)).1 = (validate_mac_st s st₁).1 ∧
    (validate_ip_st s ((validate_mac_st t st₁).2)).1 = (validate_ip_st s st₁).1 ∧
    (validate_mac_st s ((validate_mac_st t st₁).2)).1 = (validate_mac_st s st₂).1 :=
  ⟨rfl, rfl, rfl, rfl, rfl⟩

/-- Claim C8: both validators are total boolean functions with a
security-violation increment of at most one, and `create_magic_packet`
always returns `None` or a 102-byte packet — its `try` body never
escapes with an exception. -/
theorem C8_total_no_exceptions (s : List Char) :
    (validate_mac s = true ∨ validate_mac s = false) ∧
    (validate_ip s = true ∨ validate_ip s = false) ∧
    (validate_mac_full s).2 ≤ 1 ∧
    (validate_ip_full s).2 ≤ 1 ∧
    (∃ r, create_magic_packet_try s = Except.ok r) ∧
    (create_magic_packet s = none ∨
      ∃ p, create_magic_packet s = some p ∧ p.length = 102) := by
  refine ⟨?_, ?_, ?_, ?_, ?_, ?_⟩
  · cases validate_mac s
    · exact Or.inr rfl
    · exact Or.inl rfl
  · cases validate_ip s
    · exact Or.inr rfl
    · exact Or.inl rfl
  · unfold validate_mac_full
    split_ifs <;> simp
  · unfold validate_ip_full
    split_ifs <;> try simp
    cases hr : ipStructRes s with
    | ok b => simp
    | error e => simp
  · by_cases hv : validate_mac s = true
    · exact ⟨some (magicOf s), (create_magic_packet_valid hv).2.2.2.1⟩
    · rw [Bool.not_eq_true] at hv
      exact ⟨none, (create_magic_packet_invalid hv).1⟩
  · by_cases hv : validate_mac s = true
    · obtain ⟨_, _, _, _, h5, h6, _⟩ := create_magic_packet_valid hv
      exact Or.inr ⟨magicOf s, h5, h6⟩
    · rw [Bool.not_eq_true] at hv
      exact Or.inl (create_magic_packet_invalid hv).2

/-! ### The UDP send path of `send_magic_packet` -/

/-- Claim C6: the UDP destination is always the configured broadcast
address on port 9 (or no send at all when the MAC is invalid); the
caller-supplied target IP never reaches the socket — two calls
differing only in target IP differ at most in the `target_ip` metadata
field of the result. -/
theorem C6_broadcast_destination (mac : List Char)
    (tip tip₁ tip₂ : Option (List Char)) (bip : List Char) (net : NetOutcome) :
    ((send_magic_packet mac tip bip net).dest = none ∨
      (send_magic_packet mac tip bip net).dest = some (bip, 9)) ∧
    ((send_magic_packet mac tip bip net).dest = none ↔
      create_magic_packet mac = none) ∧
    (send_magic_packet mac tip₁ bip net).success =
      (send_magic_packet mac tip₂ bip net).success ∧
    (send_magic_packet mac tip₁ bip net).dest =
      (send_magic_packet mac tip₂ bip net).dest ∧
    (send_magic_packet mac tip₁ bip net).packetsSentInc =
      (send_magic_packet mac tip₂ bip net).packetsSentInc ∧
    (send_magic_packet mac tip₁ bip net).error =
      (send_magic_packet mac tip₂ bip net).error ∧
    (send_magic_packet mac tip₁ bip net).packet_size =
      (send_magic_packet mac tip₂ bip net).packet_size ∧
    (send_magic_packet mac tip₁ bip net).mac =
      (send_magic_packet mac tip₂ bip net).mac := by
  unfold send_magic_packet
  cases create_magic_packet mac with
  | none => simp
  | some pkt =>
    cases net with
    | sent n =>
      by_cases hn : n = pkt.length <;> simp [hn]
    | timeout => simp
    | sockError => simp

/-- Claim C7: `send_magic_packet` reports success exactly when the MAC
is valid and the transmitted byte count equals 102 (the packet length),
and `magic_packets_sent` is incremented exactly on that path. -/
theorem C7_success_iff_full_send (mac : List Char) (tip : Option (List Char))
    (bip : List Char) (net : NetOutcome) :
    ((send_magic_packet mac tip bip net).success = true ↔
      (validate_mac mac = true ∧ net = NetOutcome.sent 102)) ∧
    (send_magic_packet mac tip bip net).packetsSentInc =
      (if (send_magic_packet mac tip bip net).success = true then 1 else 0) := by
  by_cases hv : validate_mac mac = true
  · have hc : create_magic_packet mac = some (magicOf mac) :=
      (create_magic_packet_valid hv).2.2.2.2.1
    have hlen : (magicOf mac).length = 102 :=
      (create_magic_packet_valid hv).2.2.2.2.2.1
    cases net with
    | sent n =>
      by_cases hn : n = 102
      · subst hn
        simp [send_magic_packet, hc, hlen, hv]
      · simp [send_magic_packet, hc, hlen, hn, hv]
    | timeout => simp [send_magic_packet, hc]
    | sockError => simp [send_magic_packet, hc]
  · rw [Bool.not_eq_true] at hv
    have hc : create_magic_packet mac = none := (create_magic_packet_invalid hv).2
    simp [send_magic_packet, hc, hv]

/-! ### Claim C3: denylist signatures and size caps -/

theorem macDangerous_of_contains {s sig p : List Char} (hp : p ∈ macPatterns)
    (hsp : listContains (sig.map Char.toLower) p = true)
    (h : listContains s sig = true) :
    macDangerous (s.map Char.toLower) = true := by
  have h1 := listContains_map Char.toLower h
  have h2 := listContains_trans h1 hsp
  unfold macDangerous
  rw [List.any_eq_true]
  exact ⟨p, hp, h2⟩

theorem ipDangerous_of_contains {s sig p : List Char} (hp : p ∈ ipPatterns)
    (hsp : listContains sig p = true)
    (h : listContains s sig = true) : ipDangerous s = true := by
  have h2 := listContains_trans h hsp
  unfold ipDangerous
  rw [List.any_eq_true]
  exact ⟨p, hp, h2⟩

theorem length_le_of_listContains {hay n : List Char}
    (h : listContains hay n = true) : n.length ≤ hay.length :=
  (listContains_infix_iff.mp h).length_le

theorem validate_mac_flagged {s : List Char}
    (h : macDangerous (s.map Char.toLower) = true ∨ 50 < s.length) :
    validate_mac_full s = (false, 1) := by
  have hne : s.isEmpty = false := by
    cases s with
    | nil =>
      rcases h with h | h
      · exact absurd h (by decide)
      · exact absurd h (by simp)
    | cons a t => rfl
  unfold validate_mac_full
  rw [hne]
  by_cases hlen : 50 < s.length
  · rw [if_neg (by simp), if_pos hlen]
  · rcases h with h | h
    · rw [if_neg (by simp), if_neg hlen, if_pos h]
    · exact absurd h hlen

theorem validate_ip_flagged {s : List Char}
    (hstrip : stripList s = s) (ht : '\t' ∉ s) (hnl : '\n' ∉ s)
    (h : ipDangerous s = true ∨ 15 < s.length) :
    validate_ip_full s = (false, 1) := by
  have hne : s.isEmpty = false := by
    cases s with
    | nil =>
      rcases h with h | h
      · exact absurd h (by decide)
      · exact absurd h (by simp)
    | cons a t => rfl
  unfold validate_ip_full
  rw [hne]
  rw [if_neg (by simp)]
  rw [if_neg (by
    push_neg
    exact ⟨hstrip.symm, ht, hnl⟩)]
  by_cases hlen : 15 < s.length
  · rw [if_pos hlen]
  · rcases h with h | h
    · rw [if_neg hlen, if_pos h]
    · exact absurd h hlen

/-- Claim C3 (amended): every input containing `'; DROP TABLE`,
`<script>` or `../../../etc/passwd`, and every input longer than the
hard cap (50 for MAC, 15 for IP — e.g. 1000 repeated characters),
makes `validate_mac` return false with `securityViolations` incremented;
`validate_ip` behaves the same **provided** the input equals its own
whitespace-trimmed form and contains no tab or newline (otherwise the
whitespace guard rejects first, without incrementing).  For
`validate_mac` the denylist fires before structural parsing, so the
rejection holds even when the rest of the string would parse as a valid
MAC. -/
theorem C3_flagged_inputs :
    (∀ s : List Char,
      (listContains s sigDropTable = true ∨ listContains s sigScriptTag = true ∨
        listContains s sigPathTrav = true ∨ 50 < s.length) →
      validate_mac_full s = (false, 1)) ∧
    (∀ s : List Char, stripList s = s → '\t' ∉ s → '\n' ∉ s →
      (listContains s sigDropTable = true ∨ listContains s sigScriptTag = true ∨
        listContains s sigPathTrav = true ∨ 15 < s.length) →
      validate_ip_full s = (false, 1)) ∧
    (∀ c : Char, validate_mac_full (List.replicate 1000 c) = (false, 1)) ∧
    (∀ c : Char, isSpace c = false →
      validate_ip_full (List.replicate 1000 c) = (false, 1)) := by
  refine ⟨?_, ?_, ?_, ?_⟩
  · intro s h
    apply validate_mac_flagged
    rcases h with h | h | h | h
    · exact Or.inl (macDangerous_of_contains (p := [chQ, ';'])
        (by decide) (by decide) h)
    · exact Or.inl (macDangerous_of_contains
        (p := ['<', 's', 'c', 'r', 'i', 'p', 't']) (by decide) (by decide) h)
    · exact Or.inl (macDangerous_of_contains (p := ['.', '.', '/'])
        (by decide) (by decide) h)
    · exact Or.inr h
  · intro s hstrip ht hnl h
    apply validate_ip_flagged hstrip ht hnl
    rcases h with h | h | h | h
    · exact Or.inl (ipDangerous_of_contains (p := [chQ, ';'])
        (by decide) (by decide) h)
    · exact Or.inl (ipDangerous_of_contains (p := ['<'])
        (by decide) (by decide) h)
    · refine Or.inr ?_
      have := length_le_of_listContains h
      have : (19 : Nat) ≤ s.length := by
        simpa [sigPathTrav] using this
      omega
    · exact Or.inr h
  · intro c
    apply validate_mac_flagged
    exact Or.inr (by rw [List.length_replicate]; omega)
  · intro c hc
    have hmem : ∀ d ∈ List.replicate 1000 c, isSpace d = false := by
      intro d hd
      rw [List.eq_of_mem_replicate hd]
      exact hc
    have ht : '\t' ∉ List.replicate 1000 c := by
      intro hmem2
      have := List.eq_of_mem_replicate hmem2
      subst this
      exact absurd hc (by decide)
    have hnl : '\n' ∉ List.replicate 1000 c := by
      intro hmem2
      have := List.eq_of_mem_replicate hmem2
      subst this
      exact absurd hc (by decide)
    apply validate_ip_flagged (stripList_eq_self hmem) ht hnl
    exact Or.inr (by rw [List.length_replicate]; omega)

/-- Counterexample to claim C3 as stated: `" <script>"` contains the
denylist signature `<script>`, yet `validate_ip` rejects it through the
whitespace guard without incrementing `securityViolations`. -/
theorem C3_counterexample :
    listContains (" <script>".toList) ("<script>".toList) = true ∧
    validate_ip_full (" <script>".toList) = (false, 0) :=
  ⟨by decide, by decide⟩

/-- Concrete instantiation of claim C3 (amended): a valid-looking MAC
followed by `'; DROP TABLE` is rejected with the counter incremented,
and likewise a dotted quad followed by `<script>` for `validate_ip`. -/
theorem C3_witness :
    validate_mac_full ("AABBCCDDEEFF".toList ++ sigDropTable) = (false, 1) ∧
    validate_ip_full ("1.2.3.4".toList ++ sigScriptTag) = (false, 1) :=
  ⟨C3_flagged_inputs.1 ("AABBCCDDEEFF".toList ++ sigDropTable)
      (Or.inl (by decide)),
    C3_flagged_inputs.2.1 ("1.2.3.4".toList ++ sigScriptTag)
      (by decide) (by decide) (by decide) (Or.inr (Or.inl (by decide)))⟩

/-! ### Claim C4: what an accepted IP must look like -/

theorem octetOk_true_facts {p : List Char} (h : octetOk p = Except.ok true) :
    ¬(1 < p.length ∧ p.headD ' ' = '0') ∧
    ∃ n : Int, pyInt p = some n ∧ 0 ≤ n ∧ n ≤ 255 := by
  unfold octetOk at h
  by_cases hz : 1 < p.length ∧ p.headD ' ' = '0'
  · rw [if_pos hz] at h
    exact absurd h (by simp)
  · rw [if_neg hz] at h
    refine ⟨hz, ?_⟩
    split at h
    · exact absurd h (by simp)
    · rename_i n heq
      by_cases hr : n < 0 ∨ 255 < n
      · rw [if_pos hr] at h
        exact absurd h (by simp)
      · rw [if_neg hr] at h
        push_neg at hr
        exact ⟨n, heq, hr.1, hr.2⟩

theorem octetsOk_true_facts : ∀ {ps : List (List Char)},
    octetsOk ps = Except.ok true → ∀ p ∈ ps, octetOk p = Except.ok true := by
  intro ps
  induction ps with
  | nil => intro _ p hp; exact absurd hp (List.not_mem_nil p)
  | cons q rest ih =>
    intro h p hp
    have hstep : octetsOk (q :: rest) =
        (match octetOk q with
          | Except.error e => Except.error e
          | Except.ok false => Except.ok false
          | Except.ok true => octetsOk rest) := rfl
    rw [hstep] at h
    cases hq : octetOk q with
    | error e => rw [hq] at h; exact absurd h (by simp)
    | ok b =>
      cases b with
      | false => rw [hq] at h; exact absurd h (by simp)
      | true =>
        rw [hq] at h
        rcases List.mem_cons.mp hp with rfl | hp2
        · exact hq
        · exact ih h p hp2

theorem ipStructRes_true_facts {s : List Char}
    (hr : ipStructRes s = Except.ok true) :
    (splitOnDot s).length = 4 ∧ octetsOk (splitOnDot s) = Except.ok true ∧
    s ≠ "0.0.0.0".toList ∧ s ≠ "127.0.0.1".toList ∧
    s ≠ "255.255.255.255".toList ∧
    List.isPrefixOf ("127.".toList) s = false := by
  unfold ipStructRes at hr
  by_cases h1 : (splitOnDot s).length ≠ 4
  · rw [if_pos h1] at hr
    exact absurd hr (by simp)
  · rw [if_neg h1] at hr
    push_neg at h1
    split at hr
    · exact absurd hr (by simp)
    · exact absurd hr (by simp)
    · rename_i heq
      by_cases h2 : s = "0.0.0.0".toList ∨ s = "127.0.0.1".toList ∨
          s = "255.255.255.255".toList
      · rw [if_pos h2] at hr
        exact absurd hr (by simp)
      · rw [if_neg h2] at hr
        by_cases h3 : List.isPrefixOf ("127.".toList) s = true
        · rw [if_pos h3] at hr
          exact absurd hr (by simp)
        · rw [if_neg h3] at hr
          push_neg at h2
          rw [Bool.not_eq_true] at h3
          exact ⟨h1, heq, h2.1, h2.2.1, h2.2.2, h3⟩

theorem validate_ip_true_struct {s : List Char} (h : validate_ip s = true) :
    ipStructRes s = Except.ok true := by
  unfold validate_ip validate_ip_full at h
  split_ifs at h
  cases hr : ipStructRes s with
  | error e => rw [hr] at h; exact absurd h (by simp)
  | ok b =>
    rw [hr] at h
    cases b with
    | false => exact absurd h (by simp)
    | true => rfl

/-- Counterexample to claim C4 as stated: `validate_ip` accepts
`+127.0.0.2`, whose first octet parses (via Python `int()`) to 127 —
the `startswith('127.')` guard does not see the `+` sign. -/
theorem C4_counterexample :
    validate_ip ("+127.0.0.2".toList) = true ∧
    (splitOnDot ("+127.0.0.2".toList)).headD [] = "+127".toList ∧
    pyInt ("+127".toList) = some 127 :=
  ⟨by decide, by decide, by decide⟩

/-- Claim C4 (amended): `validate_ip` accepts an input only if it
splits on `.` into exactly 4 parts, each parsing as an integer in
`[0, 255]` with no part longer than one character starting with `0`,
and the input is not the literal `0.0.0.0` or `255.255.255.255` and
does not begin with the prefix `127.` (rather than "does not have first
octet 127": a `+` sign defeats the string-prefix check); the four
quoted evaluations hold. -/
theorem C4_accepted_shape :
    (∀ s : List Char, validate_ip s = true →
      (splitOnDot s).length = 4 ∧
      (∀ p ∈ splitOnDot s,
        ¬(1 < p.length ∧ p.headD ' ' = '0') ∧
        ∃ n : Int, pyInt p = some n ∧ 0 ≤ n ∧ n ≤ 255) ∧
      s ≠ "0.0.0.0".toList ∧ s ≠ "255.255.255.255".toList ∧
      List.isPrefixOf ("127.".toList) s = false) ∧
    validate_ip ("192.168.01.1".toList) = false ∧
    validate_ip ("192.168.1.100".toList) = true ∧
    validate_ip ("127.0.0.1".toList) = false ∧
    validate_ip ("0.0.0.0".toList) = false := by
  refine ⟨?_, by decide, by decide, by decide, by decide⟩
  intro s h
  obtain ⟨h1, h2, h3, _, h5, h6⟩ := ipStructRes_true_facts (validate_ip_true_struct h)
  exact ⟨h1, fun p hp => octetOk_true_facts (octetsOk_true_facts h2 p hp), h3, h5, h6⟩

/-- Concrete instantiation of claim C4 (amended) at `192.168.1.100`. -/
theorem C4_witness :
    validate_ip ("192.168.1.100".toList) = true ∧
    (splitOnDot ("192.168.1.100".toList)).length = 4 ∧
    List.isPrefixOf ("127.".toList) ("192.168.1.100".toList) = false :=
  ⟨by decide, (C4_accepted_shape.1 ("192.168.1.100".toList) (by decide)).1,
    (C4_accepted_shape.1 ("192.168.1.100".toList) (by decide)).2.2.2.2⟩

/-! ### Claim C2: separator-style and letter-case invariance -/

theorem mem_insertSep (sep : Char) : ∀ (l : List Char) (c : Char),
    c ∈ insertSep sep l → c ∈ l ∨ c = sep
  | [], c, h => Or.inl h
  | [a], c, h => Or.inl h
  | [a, b], c, h => Or.inl h
  | a :: b :: d :: rest, c, h => by
    rw [show insertSep sep (a :: b :: d :: rest) =
        a :: b :: sep :: insertSep sep (d :: rest) from rfl] at h
    rcases List.mem_cons.mp h with rfl | h
    · exact Or.inl (by simp)
    rcases List.mem_cons.mp h with rfl | h
    · exact Or.inl (by simp)
    rcases List.mem_cons.mp h with rfl | h
    · exact Or.inr rfl
    rcases mem_insertSep sep (d :: rest) c h with h | h
    · exact Or.inl (by simp only [List.mem_cons] at h ⊢; tauto)
    · exact Or.inr h

theorem insertSep_length_le (sep : Char) : ∀ l : List Char,
    (insertSep sep l).length ≤ 2 * l.length
  | [] => by simp [insertSep]
  | [a] => by simp [insertSep]
  | [a, b] => by simp [insertSep]
  | a :: b :: d :: rest => by
    rw [show insertSep sep (a :: b :: d :: rest) =
        a :: b :: sep :: insertSep sep (d :: rest) from rfl]
    have := insertSep_length_le sep (d :: rest)
    simp only [List.length_cons] at this ⊢
    omega

theorem insertSep_isEmpty (sep : Char) : ∀ l : List Char,
    (insertSep sep l).isEmpty = l.isEmpty
  | [] => rfl
  | [a] => rfl
  | [a, b] => rfl
  | a :: b :: d :: rest => rfl

theorem insertSep_cons_head (sep d : Char) (rest : List Char) :
    ∃ t, insertSep sep (d :: rest) = d :: t := by
  cases rest with
  | nil => exact ⟨[], rfl⟩
  | cons e rest2 =>
    cases rest2 with
    | nil => exact ⟨[e], rfl⟩
    | cons f rest3 => exact ⟨e :: sep :: insertSep sep (f :: rest3), rfl⟩

theorem map_insertSep (f : Char → Char) (sep : Char) (hf : f sep = sep) :
    ∀ l : List Char, (insertSep sep l).map f = insertSep sep (l.map f)
  | [] => rfl
  | [a] => rfl
  | [a, b] => rfl
  | a :: b :: d :: rest => by
    rw [show insertSep sep (a :: b :: d :: rest) =
        a :: b :: sep :: insertSep sep (d :: rest) from rfl]
    rw [show (a :: b :: d :: rest).map f = f a :: f b :: (d :: rest).map f from rfl]
    rw [show (d :: rest).map f = f d :: rest.map f from rfl]
    rw [show insertSep sep (f a :: f b :: f d :: rest.map f) =
        f a :: f b :: sep :: insertSep sep (f d :: rest.map f) from rfl]
    rw [show (f d :: List.map f rest) = List.map f (d :: rest) from rfl]
    rw [← map_insertSep f sep hf (d :: rest)]
    simp [hf]

theorem removeSeps_eq_self {l : List Char}
    (h : ∀ c ∈ l, isSepSpace c = false) : removeSeps l = l := by
  unfold removeSeps
  rw [List.filter_eq_self]
  intro a ha
  rw [h a ha]
  rfl

theorem removeSeps_insertSep (sep : Char) (hsep : isSepSpace sep = true) :
    ∀ l : List Char, (∀ c ∈ l, isSepSpace c = false) →
    removeSeps (insertSep sep l) = l
  | [], h => rfl
  | [a], h => removeSeps_eq_self h
  | [a, b], h => removeSeps_eq_self h
  | a :: b :: d :: rest, h => by
    rw [show insertSep sep (a :: b :: d :: rest) =
        a :: b :: sep :: insertSep sep (d :: rest) from rfl]
    unfold removeSeps
    rw [List.filter_cons_of_pos (by rw [h a (by simp)]; rfl)]
    rw [List.filter_cons_of_pos (by rw [h b (by simp)]; rfl)]
    rw [List.filter_cons_of_neg (by rw [hsep]; simp)]
    have IH := removeSeps_insertSep sep hsep (d :: rest)
      (fun c hc => h c (by simp only [List.mem_cons] at hc ⊢; tauto))
    unfold removeSeps at IH
    rw [IH]

theorem noAdjacent_insertSep : ∀ l : List Char,
    (∀ c ∈ l, (c == '-') = false) → noAdjacent (insertSep '-' l) = true
  | [], h => rfl
  | [a], h => rfl
  | [a, b], h => by
    have ha := h a (by simp)
    have hb := h b (by simp)
    simp [insertSep, noAdjacent, ha]
  | a :: b :: d :: rest, h => by
    obtain ⟨t, ht⟩ := insertSep_cons_head '-' d rest
    have IH := noAdjacent_insertSep (d :: rest)
      (fun c hc => h c (by simp only [List.mem_cons] at hc ⊢; tauto))
    rw [ht] at IH
    rw [show insertSep '-' (a :: b :: d :: rest) =
        a :: b :: '-' :: insertSep '-' (d :: rest) from rfl, ht]
    have ha := h a (by simp)
    have hb := h b (by simp)
    have hd := h d (by simp)
    simp only [noAdjacent, Bool.and_eq_true, Bool.not_eq_true']
    refine ⟨by rw [ha]; rfl, by rw [hb]; simp, ?_, IH⟩
    rw [Bool.and_eq_false_iff]
    exact Or.inr hd

theorem macDangerous_false_colon {hay : List Char}
    (hS : ∀ c ∈ hay, (isLowerHex c || c == ':') = true) :
    macDangerous hay = false := by
  unfold macDangerous
  rw [List.any_eq_false]
  intro p hp
  show ¬listContains hay p = true
  rw [Bool.not_eq_true]
  simp only [macPatterns, List.mem_cons, List.not_mem_nil, or_false] at hp
  rcases hp with rfl | rfl | rfl | rfl | rfl | rfl | rfl | rfl | rfl | rfl |
    rfl | rfl | rfl | rfl | rfl | rfl | rfl | rfl | rfl
  · exact listContains_false_of hS (w := ';') (by decide) (by decide)
  · exact listContains_false_of hS (w := '"') (by decide) (by decide)
  · exact listContains_false_of hS (w := '-') (by decide) (by decide)
  · exact listContains_false_of hS (w := '/') (by decide) (by decide)
  · exact listContains_false_of hS (w := '*') (by decide) (by decide)
  · exact listContains_false_of hS (w := '$') (by decide) (by decide)
  · exact listContains_false_of hS (w := '<') (by decide) (by decide)
  · exact listContains_false_of hS (w := '.') (by decide) (by decide)
  · exact listContains_false_of hS (w := 'x') (by decide) (by decide)
  · exact listContains_false_of hS (w := 'r') (by decide) (by decide)
  · exact listContains_false_of hS (w := 'l') (by decide) (by decide)
  · exact listContains_false_of hS (w := 'i') (by decide) (by decide)
  · exact listContains_false_of hS (w := 'u') (by decide) (by decide)
  · exact listContains_false_of hS (w := 's') (by decide) (by decide)
  · exact listContains_false_of hS (w := 'u') (by decide) (by decide)
  · exact listContains_false_of hS (w := 'x') (by decide) (by decide)
  · exact listContains_false_of hS (w := 'v') (by decide) (by decide)
  · exact listContains_false_of hS (w := 's') (by decide) (by decide)
  · exact listContains_false_of hS (w := '_') (by decide) (by decide)

theorem macDangerous_false_hyphen {hay : List Char}
    (hS : ∀ c ∈ hay, (isLowerHex c || c == '-') = true)
    (hA : noAdjacent hay = true) :
    macDangerous hay = false := by
  unfold macDangerous
  rw [List.any_eq_false]
  intro p hp
  show ¬listContains hay p = true
  rw [Bool.not_eq_true]
  simp only [macPatterns, List.mem_cons, List.not_mem_nil, or_false] at hp
  rcases hp with rfl | rfl | rfl | rfl | rfl | rfl | rfl | rfl | rfl | rfl |
    rfl | rfl | rfl | rfl | rfl | rfl | rfl | rfl | rfl
  · exact listContains_false_of hS (w := ';') (by decide) (by decide)
  · exact listContains_false_of hS (w := '"') (by decide) (by decide)
  · exact listContains_dashdash_false hA
  · exact listContains_false_of hS (w := '/') (by decide) (by decide)
  · exact listContains_false_of hS (w := '*') (by decide) (by decide)
  · exact listContains_false_of hS (w := '$') (by decide) (by decide)
  · exact listContains_false_of hS (w := '<') (by decide) (by decide)
  · exact listContains_false_of hS (w := '.') (by decide) (by decide)
  · exact listContains_false_of hS (w := 'x') (by decide) (by decide)
  · exact listContains_false_of hS (w := 'r') (by decide) (by decide)
  · exact listContains_false_of hS (w := 'l') (by decide) (by decide)
  · exact listContains_false_of hS (w := 'i') (by decide) (by decide)
  · exact listContains_false_of hS (w := 'u') (by decide) (by decide)
  · exact listContains_false_of hS (w := 's') (by decide) (by decide)
  · exact listContains_false_of hS (w := 'u') (by decide) (by decide)
  · exact listContains_false_of hS (w := 'x') (by decide) (by decide)
  · exact listContains_false_of hS (w := 'v') (by decide) (by decide)
  · exact listContains_false_of hS (w := 's') (by decide) (by decide)
  · exact listContains_false_of hS (w := '_') (by decide) (by decide)

theorem not_mem_of_hex {cs : List Char} (hh : ∀ c ∈ cs, isHexCI c = true)
    {w : Char} (hw : isHexCI w = false) : w ∉ cs := by
  intro hmem
  rw [hh w hmem] at hw
  exact absurd hw (by simp)

theorem contains_eq_false_of_not_mem {v : List Char} {w : Char}
    (h : w ∉ v) : v.contains w = false := by
  cases hc : v.contains w with
  | false => rfl
  | true => exact absurd (List.elem_iff.mp hc) h

theorem validate_mac_insertSep (sep : Char) (hsep : sep = ':' ∨ sep = '-')
    (cs : List Char) (hl : cs.length = 12)
    (hh : ∀ c ∈ cs, isHexCI c = true) :
    macCleanV (insertSep sep cs) = cs.map Char.toUpper ∧
    macCleanOf (insertSep sep cs) = cs.map Char.toUpper ∧
    validate_mac_full (insertSep sep cs) =
      (macPolicy (cs.map Char.toUpper), 0) := by
  have hmem : ∀ c ∈ insertSep sep cs, c ∈ cs ∨ c = sep :=
    fun c hc => mem_insertSep sep cs c hc
  have hnospace : ∀ c ∈ insertSep sep cs, isSpace c = false := by
    intro c hc
    rcases hmem c hc with h | rfl
    · exact (hexCI_facts c (hh c h)).2.2.1
    · rcases hsep with rfl | rfl <;> decide
  have hstrip : stripList (insertSep sep cs) = insertSep sep cs :=
    stripList_eq_self hnospace
  have hupper : Char.toUpper sep = sep := by
    rcases hsep with rfl | rfl <;> decide
  have hlower : Char.toLower sep = sep := by
    rcases hsep with rfl | rfl <;> decide
  have hsepspace : isSepSpace sep = true := by
    rcases hsep with rfl | rfl <;> decide
  have hcsupper : ∀ c ∈ cs.map Char.toUpper, isSepSpace c = false := by
    intro c hc
    obtain ⟨c', hc', rfl⟩ := List.mem_map.mp hc
    exact (hexCI_facts c' (hh c' hc')).2.2.2.2.2
  have hcleanOf : macCleanOf (insertSep sep cs) = cs.map Char.toUpper := by
    unfold macCleanOf
    rw [map_insertSep Char.toUpper sep hupper]
    exact removeSeps_insertSep sep hsepspace (cs.map Char.toUpper) hcsupper
  have hcleanV : macCleanV (insertSep sep cs) = cs.map Char.toUpper := by
    unfold macCleanV
    rw [hstrip]
    rw [map_insertSep Char.toUpper sep hupper]
    exact removeSeps_insertSep sep hsepspace (cs.map Char.toUpper) hcsupper
  have hcs_ne : cs ≠ [] := by
    intro hc
    rw [hc] at hl
    exact absurd hl (by simp)
  have hempty : (insertSep sep cs).isEmpty = false := by
    rw [insertSep_isEmpty]
    cases cs with
    | nil => exact absurd rfl hcs_ne
    | cons a t => rfl
  have hlen : ¬50 < (insertSep sep cs).length := by
    have := insertSep_length_le sep cs
    omega
  have hdanger : macDangerous ((insertSep sep cs).map Char.toLower) = false := by
    rw [map_insertSep Char.toLower sep hlower]
    have hSlow : ∀ c ∈ cs.map Char.toLower, isLowerHex c = true := by
      intro c hc
      obtain ⟨c', hc', rfl⟩ := List.mem_map.mp hc
      exact (hexCI_facts c' (hh c' hc')).1
    rcases hsep with rfl | rfl
    · apply macDangerous_false_colon
      intro c hc
      rcases mem_insertSep ':' (cs.map Char.toLower) c hc with h | rfl
      · rw [hSlow c h]
        rfl
      · simp
    · apply macDangerous_false_hyphen
      · intro c hc
        rcases mem_insertSep '-' (cs.map Char.toLower) c hc with h | rfl
        · rw [hSlow c h]
          rfl
        · simp
      · apply noAdjacent_insertSep
        intro c hc
        exact lowerHex_beq_false (hSlow c hc) (by decide)
  have hmixed : ((stripList (insertSep sep cs)).contains ':' &&
      (stripList (insertSep sep cs)).contains '-') = false := by
    rw [hstrip]
    rcases hsep with rfl | rfl
    · have : (insertSep ':' cs).contains '-' = false := by
        apply contains_eq_false_of_not_mem
        intro hmem2
        rcases mem_insertSep ':' cs '-' hmem2 with h | h
        · exact not_mem_of_hex hh (by decide) h
        · exact absurd h (by decide)
      rw [this, Bool.and_false]
    · have : (insertSep '-' cs).contains ':' = false := by
        apply contains_eq_false_of_not_mem
        intro hmem2
        rcases mem_insertSep '-' cs ':' hmem2 with h | h
        · exact not_mem_of_hex hh (by decide) h
        · exact absurd h (by decide)
      rw [this, Bool.false_and]
  have hcleanlen : ¬(macCleanV (insertSep sep cs)).length ≠ 12 := by
    rw [hcleanV, List.length_map, hl]
    omega
  have hallhex : (!(macCleanV (insertSep sep cs)).all isUpperHex) = false := by
    rw [hcleanV]
    rw [Bool.not_eq_false']
    rw [List.all_eq_true]
    intro c hc
    obtain ⟨c', hc', rfl⟩ := List.mem_map.mp hc
    rw [(hexCI_facts c' (hh c' hc')).2.1]
  refine ⟨hcleanV, hcleanOf, ?_⟩
  unfold validate_mac_full
  rw [hempty]
  rw [if_neg (by simp)]
  rw [if_neg hlen, if_neg (by rw [hdanger]; simp),
    if_neg (by rw [hmixed]; simp), if_neg hcleanlen,
    if_neg (by rw [hallhex]; simp), hcleanV]
  unfold macPolicy
  split_ifs <;> rfl

theorem validate_mac_bare (cs : List Char) (hl : cs.length = 12)
    (hh : ∀ c ∈ cs, isHexCI c = true) :
    macCleanV cs = cs.map Char.toUpper ∧
    macCleanOf cs = cs.map Char.toUpper ∧
    validate_mac_full cs = (macPolicy (cs.map Char.toUpper), 0) := by
  have hnospace : ∀ c ∈ cs, isSpace c = false :=
    fun c hc => (hexCI_facts c (hh c hc)).2.2.1
  have hstrip : stripList cs = cs := stripList_eq_self hnospace
  have hcsupper : ∀ c ∈ cs.map Char.toUpper, isSepSpace c = false := by
    intro c hc
    obtain ⟨c', hc', rfl⟩ := List.mem_map.mp hc
    exact (hexCI_facts c' (hh c' hc')).2.2.2.2.2
  have hcleanOf : macCleanOf cs = cs.map Char.toUpper := by
    unfold macCleanOf
    exact removeSeps_eq_self hcsupper
  have hcleanV : macCleanV cs = cs.map Char.toUpper := by
    unfold macCleanV
    rw [hstrip]
    exact removeSeps_eq_self hcsupper
  have hempty : cs.isEmpty = false := by
    cases cs with
    | nil => exact absurd hl (by simp)
    | cons a t => rfl
  have hdanger : macDangerous (cs.map Char.toLower) = false := by
    apply macDangerous_false_colon
    intro c hc
    obtain ⟨c', hc', rfl⟩ := List.mem_map.mp hc
    rw [(hexCI_facts c' (hh c' hc')).1]
    rfl
  have hmixed : ((stripList cs).contains ':' &&
      (stripList cs).contains '-') = false := by
    rw [hstrip]
    have : cs.contains '-' = false :=
      contains_eq_false_of_not_mem (not_mem_of_hex hh (by decide))
    rw [this, Bool.and_false]
  have hcleanlen : ¬(macCleanV cs).length ≠ 12 := by
    rw [hcleanV, List.length_map, hl]
    omega
  have hallhex : (!(macCleanV cs).all isUpperHex) = false := by
    rw [hcleanV]
    rw [Bool.not_eq_false']
    rw [List.all_eq_true]
    intro c hc
    obtain ⟨c', hc', rfl⟩ := List.mem_map.mp hc
    rw [(hexCI_facts c' (hh c' hc')).2.1]
  refine ⟨hcleanV, hcleanOf, ?_⟩
  unfold validate_mac_full
  rw [hempty]
  rw [if_neg (by simp)]
  rw [if_neg (by rw [hl]; omega), if_neg (by rw [hdanger]; simp),
    if_neg (by rw [hmixed]; simp), if_neg hcleanlen,
    if_neg (by rw [hallhex]; simp), hcleanV]
  unfold macPolicy
  split_ifs <;> rfl

theorem validate_mac_variant (st : SepStyle) (cs : List Char)
    (hl : cs.length = 12) (hh : ∀ c ∈ cs, isHexCI c = true) :
    macCleanV (applySep st cs) = cs.map Char.toUpper ∧
    macCleanOf (applySep st cs) = cs.map Char.toUpper ∧
    validate_mac_full (applySep st cs) =
      (macPolicy (cs.map Char.toUpper), 0) := by
  cases st
  · exact validate_mac_insertSep ':' (Or.inl rfl) cs hl hh
  · exact validate_mac_insertSep '-' (Or.inr rfl) cs hl hh
  · exact validate_mac_bare cs hl hh

/-- Claim C2: for a canonical 12-hex-digit MAC, all renderings that
differ only by separator style (`:`, `-`, none) and letter case get the
same verdict from `validate_mac`, and — when accepted —
`create_magic_packet` builds byte-identical 102-byte packets for all of
them. -/
theorem C2_separator_case_invariance (cs₁ cs₂ : List Char)
    (st₁ st₂ : SepStyle)
    (h₁ : ∀ c ∈ cs₁, isHexCI c = true) (h₂ : ∀ c ∈ cs₂, isHexCI c = true)
    (hl : cs₁.length = 12)
    (he : cs₁.map Char.toUpper = cs₂.map Char.toUpper) :
    validate_mac (applySep st₁ cs₁) = validate_mac (applySep st₂ cs₂) ∧
    (validate_mac (applySep st₁ cs₁) = true →
      create_magic_packet (applySep st₁ cs₁) =
        create_magic_packet (applySep st₂ cs₂) ∧
      ∃ p, create_magic_packet (applySep st₁ cs₁) = some p ∧
        p.length = 102) := by
  have hl₂ : cs₂.length = 12 := by
    have h := congrArg List.length he
    simp only [List.length_map] at h
    omega
  obtain ⟨hv1, ho1, hf1⟩ := validate_mac_variant st₁ cs₁ hl h₁
  obtain ⟨hv2, ho2, hf2⟩ := validate_mac_variant st₂ cs₂ hl₂ h₂
  have hveq : validate_mac (applySep st₁ cs₁) =
      validate_mac (applySep st₂ cs₂) := by
    unfold validate_mac
    rw [hf1, hf2, he]
  refine ⟨hveq, ?_⟩
  intro htrue
  have htrue2 : validate_mac (applySep st₂ cs₂) = true := by
    rw [← hveq]
    exact htrue
  have hbytes : macBytes (applySep st₁ cs₁) = macBytes (applySep st₂ cs₂) := by
    unfold macBytes macCleanOf
    unfold macCleanOf at ho1 ho2
    rw [ho1, ho2, he]
  have hc1 := (create_magic_packet_valid htrue).2.2.2.2.1
  have hc2 := (create_magic_packet_valid htrue2).2.2.2.2.1
  have hlen1 := (create_magic_packet_valid htrue).2.2.2.2.2.1
  refine ⟨?_, magicOf (applySep st₁ cs₁), hc1, hlen1⟩
  rw [hc1, hc2]
  unfold magicOf
  rw [hbytes]

/-- Concrete instantiation of claim C2: the lowercase-colon and
uppercase-hyphen renderings of `AABBCCDDEEFF` agree. -/
theorem C2_witness :
    validate_mac ("aa:bb:cc:dd:ee:ff".toList) =
      validate_mac ("AA-BB-CC-DD-EE-FF".toList) ∧
    create_magic_packet ("aa:bb:cc:dd:ee:ff".toList) =
      create_magic_packet ("AA-BB-CC-DD-EE-FF".toList) := by
  have h := C2_separator_case_invariance ("aabbccddeeff".toList)
    ("AABBCCDDEEFF".toList) SepStyle.colon SepStyle.hyphen
    (by decide) (by decide) (by decide) (by decide)
  have e1 : applySep SepStyle.colon ("aabbccddeeff".toList) =
      "aa:bb:cc:dd:ee:ff".toList := by decide
  have e2 : applySep SepStyle.hyphen ("AABBCCDDEEFF".toList) =
      "AA-BB-CC-DD-EE-FF".toList := by decide
  rw [e1, e2] at h
  exact ⟨h.1, (h.2 (by decide)).1⟩

end WoL
